import Mathlib

/-!
Shallow embedding of the vscode-addr2line extension (src/extension.ts).

The extension scans terminal lines for kernel-backtrace-style addresses
with the regex /[^+\ :]+\+0x[0-9a-f]+\/0x[0-9a-f]+/g, resolves a clicked
address through a long-lived `addr2line -e target` child process, parses
the textual output by string splitting, and opens the resulting file:line
(directly for one result, through a quick pick for several).

Strings are modelled as `List Char` where character-level behaviour
matters (JS `matchAll`, `trim`, `split`, `parseInt`, path handling);
`String` only appears at the API boundary.  Indices are UTF-16 offsets in
JS; for the code points involved here they coincide with char indices.
-/

namespace Addr2LineExt

/-- JS ASCII whitespace as relevant to `String.prototype.trim` and
`parseInt` on addr2line output (space, tab, newline, carriage return,
vertical tab, form feed; Unicode spaces do not occur in this data). -/
def isJsWs (c : Char) : Bool :=
  c = ' ' || c = '\t' || c = '\n' || c = '\r' || c = '\x0b' || c = '\x0c'

/-- JS `String.prototype.trim`: strip leading and trailing whitespace. -/
def jsTrim (l : List Char) : List Char :=
  ((l.dropWhile isJsWs).reverse.dropWhile isJsWs).reverse

/-- JS `String.prototype.split` with a one-character separator: splits on
every occurrence; the empty string yields `[[]]` (JS: `[""]`), so the
result is never the empty list. -/
def splitOnChar (sep : Char) : List Char → List (List Char)
  | [] => [[]]
  | c :: cs =>
    let rest := splitOnChar sep cs
    if c = sep then [] :: rest
    else
      match rest with
      | [] => [[c]]
      | r :: rs => (c :: r) :: rs

/-- Decimal digit value of the leading digit run, as an exact integer
(`parseInt(s, 10)` truncates at the first non-digit). -/
def digitsToNat (l : List Char) : Nat :=
  l.foldl (fun a c => a * 10 + (c.toNat - '0'.toNat)) 0

/-- Sign-and-digits part of `parseInt(s, 10)` after whitespace skipping:
an optional sign followed by a nonempty digit run; `none` models NaN. -/
def parseIntCore : List Char → Option Int
  | [] => none
  | c :: rest =>
    if c = '+' then
      if rest.takeWhile Char.isDigit = [] then none
      else some (digitsToNat (rest.takeWhile Char.isDigit))
    else if c = '-' then
      if rest.takeWhile Char.isDigit = [] then none
      else some (-(digitsToNat (rest.takeWhile Char.isDigit) : Int))
    else
      if (c :: rest).takeWhile Char.isDigit = [] then none
      else some (digitsToNat ((c :: rest).takeWhile Char.isDigit))

/-- JS `parseInt(s, 10)`: skip leading whitespace, optional sign, then a
nonempty run of decimal digits; `none` models NaN. -/
def jsParseInt10 (l : List Char) : Option Int :=
  parseIntCore (l.dropWhile isJsWs)

/-- JS `parseInt` applied to a possibly-undefined argument
(`parseInt(undefined, 10)` is NaN). -/
def jsParseInt10Opt : Option (List Char) → Option Int
  | none => none
  | some l => jsParseInt10 l

/-! ### The terminal-link regex

`/[^+\ :]+\+0x[0-9a-f]+\/0x[0-9a-f]+/` with the `g` flag, used by
`provideTerminalLinks` via `String.prototype.matchAll`. -/

/-- Membership in the character class `[^+\ :]` (any char except `+`,
space, `:`). -/
def classChar (c : Char) : Bool :=
  !(c = '+' || c = ' ' || c = ':')

/-- Membership in the character class `[0-9a-f]`. -/
def hexChar (c : Char) : Bool :=
  ('0' ≤ c && c ≤ '9') || ('a' ≤ c && c ≤ 'f')

/-- Attempt of the regex at start position `i`, returning the matched
text.  The backtracking JS engine is deterministic on this pattern: each
greedy piece (`[^+\ :]+`, `[0-9a-f]+`) is followed by a literal outside
its own class, so giving characters back can never succeed and each
greedy piece takes exactly its maximal run. -/
def matchAt (s : List Char) (i : Nat) : Option (List Char) :=
  let t := s.drop i
  let p1 := t.takeWhile classChar
  if p1 = [] then none
  else
    match t.drop p1.length with
    | '+' :: '0' :: 'x' :: t2 =>
      let h1 := t2.takeWhile hexChar
      if h1 = [] then none
      else
        match t2.drop h1.length with
        | '/' :: '0' :: 'x' :: t3 =>
          let h2 := t3.takeWhile hexChar
          if h2 = [] then none
          else some (p1 ++ '+' :: '0' :: 'x' :: (h1 ++ '/' :: '0' :: 'x' :: h2))
        | _ => none
    | _ => none

/-- The `matchAll` scan: from position `i`, try each start position in
increasing order; on a match emit `(index, text)` and resume right after
it (every match is nonempty, so `lastIndex` advances past it).  `fuel`
bounds the recursion; `jsMatchAll` supplies enough for the whole line. -/
def scanMatches (s : List Char) : Nat → Nat → List (Nat × List Char)
  | _, 0 => []
  | i, fuel + 1 =>
    if i < s.length then
      match matchAt s i with
      | some txt => (i, txt) :: scanMatches s (i + txt.length) fuel
      | none => scanMatches s (i + 1) fuel
    else []

/-- All matches of the link regex over one terminal line, leftmost-first
and non-overlapping, as `String.prototype.matchAll` enumerates them. -/
def jsMatchAll (line : String) : List (Nat × String) :=
  (scanMatches line.toList 0 (line.toList.length + 1)).map
    (fun m => (m.1, String.mk m.2))

/-- One entry of the array returned by `provideTerminalLinks`:
`startIndex`, `length`, `tooltip` and the extra `link` field carrying the
matched text. -/
structure TerminalLink where
  startIndex : Nat
  length : Nat
  tooltip : String
  link : String
  deriving Repr, DecidableEq

/-- The tooltip attached to every link. -/
def linkTooltip (target : String) : String :=
  "addr2line -e " ++ target ++ " this address"

/-- Definition of `provideTerminalLinks`: loop over the regex matches of the line,
pushing one link per match. -/
def provideTerminalLinks (line : String) (target : String) : List TerminalLink :=
  (jsMatchAll line).foldl
    (fun links m =>
      links ++ [{ startIndex := m.1
                  length := m.2.length
                  tooltip := linkTooltip target
                  link := m.2 }])
    []

/-- The language of the link regex, stated declaratively: a nonempty run
outside `{+, space, :}`, then `+0x`, a nonempty hex run, `/0x`, and a
nonempty hex run. -/
def frameShape (l : List Char) : Prop :=
  ∃ a h1 h2 : List Char,
    l = a ++ '+' :: '0' :: 'x' :: (h1 ++ '/' :: '0' :: 'x' :: h2) ∧
    a ≠ [] ∧ h1 ≠ [] ∧ h2 ≠ [] ∧
    a.all classChar ∧ h1.all hexChar ∧ h2.all hexChar

/-! ### Node `path.resolve` / `path.relative` (posix)

`handleTerminalLink` normalizes each parsed file path with
`path.resolve(relativeTo, file)` and `path.relative(relativeTo, realPath)`.
Both are modelled segment-wise, equivalent to Node's character scan on
normalized inputs; the process working directory (reached only when every
argument is relative, which never happens here since `relativeTo` is an
absolute URI path or "/") is modelled as "/". -/

namespace path

/-- Node `normalizeString` segment step: drop empty and `.` segments,
pop on `..` (or keep/emit `..` above the root of a relative path).  The
accumulator holds the output segments in reverse. -/
def normStep (allowAboveRoot : Bool) (acc : List (List Char)) (seg : List Char) :
    List (List Char) :=
  if seg = [] || seg = ['.'] then acc
  else if seg = ['.', '.'] then
    match acc with
    | [] => if allowAboveRoot then [['.', '.']] else []
    | top :: rest =>
      if top = ['.', '.'] then
        if allowAboveRoot then ['.', '.'] :: acc else acc
      else rest
  else seg :: acc

/-- Node `normalizeString`: normalize a `/`-separated path, resolving
`.` and `..` segments. -/
def normSegs (allowAboveRoot : Bool) (segs : List (List Char)) : List (List Char) :=
  (segs.foldl (normStep allowAboveRoot) []).reverse

/-- The right-to-left accumulation loop of posix `path.resolve`: prepend
arguments (last first) until one is absolute; returns the concatenation
and whether an absolute argument was found. -/
def resolveAccum : List (List Char) → List Char → (List Char × Bool)
  | [], acc => (acc, false)
  | p :: rest, acc =>
    if p = [] then resolveAccum rest acc
    else
      let acc' := p ++ '/' :: acc
      if p.head? = some '/' then (acc', true) else resolveAccum rest acc'

/-- posix `path.resolve(...paths)`, with the working directory modelled
as "/". -/
def resolve (paths : List (List Char)) : List Char :=
  let (rp, abs) := resolveAccum (paths.reverse ++ [['/']]) []
  let norm := List.intercalate ['/'] (normSegs (!abs) (splitOnChar '/' rp))
  if abs then '/' :: norm
  else if norm = [] then ['.'] else norm

/-- Segments of a resolved absolute path, without the leading `/`
(so `/` itself has no segments). -/
def absSegs (p : List Char) : List (List Char) :=
  if p = ['/'] then [] else splitOnChar '/' (p.drop 1)

/-- Length of the common segment prefix of two paths. -/
def commonPrefixLen : List (List Char) → List (List Char) → Nat
  | a :: as, b :: bs => if a = b then commonPrefixLen as bs + 1 else 0
  | _, _ => 0

/-- posix `path.relative(f, t)`: resolve both, strip the common segment
prefix, go up once per remaining `f` segment, then down the remaining
`t` segments. -/
def relative (f t : List Char) : List Char :=
  if f = t then []
  else
    let rf := resolve [f]
    let rt := resolve [t]
    if rf = rt then []
    else
      let fsegs := absSegs rf
      let tsegs := absSegs rt
      let c := commonPrefixLen fsegs tsegs
      List.intercalate ['/'] (List.replicate (fsegs.length - c) ['.', '.'] ++ tsegs.drop c)

end path

/-! ### `handleTerminalLink`: parsing and consuming the resolver output -/

/-- One parsed output line of the resolver, as destructured by
`let [file, lineStr] = outputLine.trim().split(":")`: the first
`:`-separated part and, when present, the second. -/
def parsedPair (outputLine : List Char) : List Char × Option (List Char) :=
  let parts := splitOnChar ':' (jsTrim outputLine)
  (parts.headD [], parts.get? 1)

/-- The ordered list of parsed (file, line-string) pairs of a resolver
output: the trimmed output split on newlines, each line trimmed and
split on `:`. -/
def parsedPairs (output : List Char) : List (List Char × Option (List Char)) :=
  (splitOnChar '\n' (jsTrim output)).map parsedPair

/-- The line number recorded for a parsed pair: `parseInt(lineStr, 10)`,
defaulting to 1 on NaN (including a missing `lineStr`). -/
def lineNumberOf (lineStr : Option (List Char)) : Int :=
  (jsParseInt10Opt lineStr).getD 1

/-- The accumulator of `handleTerminalLink`'s parsing loop:
`quickPickItems` (label and description), `realPaths`, `lines`. -/
structure HandlerAcc where
  quickPickItems : List (List Char × Option (List Char))
  realPaths : List (List Char)
  lines : List Int
  deriving Repr, DecidableEq

/-- One iteration of the `for (const outputLine of outputLines)` loop:
split the trimmed line on `:` (destructuring keeps the first two parts),
parse the line number with `parseInt` defaulting to 1 on NaN, resolve
the path against `relativeTo`, push the quick-pick item, the absolute
path and the line number. -/
def processLine (relativeTo : List Char) (acc : HandlerAcc) (outputLine : List Char) :
    HandlerAcc :=
  let parts := splitOnChar ':' (jsTrim outputLine)
  let file := parts.headD []
  let lineStr := parts.get? 1
  let line := (jsParseInt10Opt lineStr).getD 1
  let realPath := path.resolve [relativeTo, file]
  { quickPickItems := acc.quickPickItems ++ [(path.relative relativeTo realPath, lineStr)]
    realPaths := acc.realPaths ++ [realPath]
    lines := acc.lines ++ [line] }

/-- What `handleTerminalLink` does with a successful resolution: open one
file:line, or show a quick pick over several. -/
inductive Action where
  | quickPick (items : List (List Char × Option (List Char)))
      (realPaths : List (List Char)) (lines : List Int)
  | openFile (realPath : List Char) (line : Int)
  | noAction
  deriving Repr, DecidableEq

/-- The accumulator after `handleTerminalLink`'s parsing loop: the
trimmed output split on newlines, folded through `processLine` with
`relativeTo` the first workspace folder path (or "/"). -/
def handlerAcc (output : List Char) (workspaceFolders : List (List Char)) : HandlerAcc :=
  (splitOnChar '\n' (jsTrim output)).foldl
    (processLine (workspaceFolders.headD ['/'])) ⟨[], [], []⟩

/-- The `.then((output) => ...)` continuation of `handleTerminalLink`:
run the parsing loop, then either show a quick pick (more than one
item) or open the single result. -/
def handleResolvedOutput (output : List Char) (workspaceFolders : List (List Char)) :
    Action :=
  let acc := handlerAcc output workspaceFolders
  if acc.quickPickItems.length > 1 then
    .quickPick acc.quickPickItems acc.realPaths acc.lines
  else if acc.quickPickItems.length = 1 then
    .openFile (acc.realPaths.headD []) (acc.lines.headD 1)
  else .noAction

/-- The portion of a line after its first `:`, when the line contains
one. -/
def afterFirstColon (l : List Char) : Option (List Char) :=
  if ':' ∈ l then some ((l.dropWhile (· ≠ ':')).tail) else none

/-! ### `Addr2Line` process lifecycle (`start` / `stop` / `close` events)

State of the wrapper together with the operating system's view: the
`this.process` handle, the set of live child processes spawned by the
wrapper, and the close events queued for delivery.  `kill(9)` is modelled
as making the child dead at once, queueing its `close` event; every
spawned child registers `this.process.on('close', () => { this.process =
null; })`, so a delivered close event nulls the handle unconditionally,
even when the handle meanwhile points to a different child. -/

structure LifeState where
  handle : Option Nat
  alive : List Nat
  pendingClose : List Nat
  nextPid : Nat
  deriving Repr, DecidableEq

/-- The operations affecting the wrapper's process state: `start`
(kill the current handle if any, spawn a fresh child), `stop` (kill and
clear), and delivery of a queued `close` event. -/
inductive LifeEvent where
  | start
  | stop
  | closeEv (pid : Nat)
  deriving Repr, DecidableEq

/-- Kill a child: it leaves the live set and its close event is queued. -/
def killPid (s : LifeState) (p : Nat) : LifeState :=
  { s with alive := s.alive.erase p, pendingClose := s.pendingClose ++ [p] }

/-- One step of the lifecycle. -/
def lifeStep (s : LifeState) : LifeEvent → LifeState
  | .start =>
    let s' := match s.handle with
      | some p => killPid s p
      | none => s
    { s' with handle := some s'.nextPid
              alive := s'.alive ++ [s'.nextPid]
              nextPid := s'.nextPid + 1 }
  | .stop =>
    match s.handle with
    | some p => { killPid s p with handle := none }
    | none => s
  | .closeEv p =>
    if p ∈ s.pendingClose then
      { s with handle := none, pendingClose := s.pendingClose.erase p }
    else s

/-- Run a sequence of lifecycle events from a state. -/
def lifeRun (s : LifeState) (evs : List LifeEvent) : LifeState :=
  evs.foldl lifeStep s

/-- The initial state: no handle, no children. -/
def lifeInit : LifeState := ⟨none, [], [], 0⟩

/-! ### `resolveAddress` -/

/-- An event observable by a pending `resolveAddress` promise: stdout
data, a process error, or the process closing with an exit code. -/
inductive PEvent where
  | data (s : String)
  | errorEv
  | closeEv (code : Int)
  deriving Repr, DecidableEq

/-- How a promise settles. -/
inductive Outcome where
  | resolved (s : String)
  | rejected (msg : String)
  deriving Repr, DecidableEq

/-- The timeout rejection message. -/
def timeoutMsg : String := "addr2line resolution timed out after 5 seconds"

/-- The rejection message when no process is running. -/
def notRunningMsg (target : String) : String :=
  "addr2line -e " ++ target ++ " not running. Is addr2line installed ? " ++
    "Does " ++ target ++ " exist ?"

/-- Settlement of one `resolveAddress` promise on a live process, given
the process events in chronological order with their times in
milliseconds: the first settlement wins, and the `setTimeout` armed at
call time rejects at 5000 ms if nothing settled earlier. -/
def firstSettler : List (Nat × PEvent) → Outcome
  | [] => .rejected timeoutMsg
  | (t, e) :: _ =>
    if t < 5000 then
      match e with
      | .data s => .resolved s
      | .errorEv => .rejected "addr2line errored out"
      | .closeEv c => .rejected ("addr2line exited with code " ++ toString c)
    else .rejected timeoutMsg

/-- Result of one `resolveAddress` call: how its promise settles and
what it writes to the child's stdin. -/
structure ResolveResult where
  outcome : Outcome
  writes : List String
  deriving Repr, DecidableEq

/-- Definition of `resolveAddress(address)`: with no live process, reject immediately
with the "not running" error and write nothing; otherwise arm the 5 s
timeout, attach the data/error/close listeners, write `address + "\n"`
to stdin, and settle with the first event (or the timeout). -/
def resolveAddress (processLive : Bool) (target address : String)
    (events : List (Nat × PEvent)) : ResolveResult :=
  if !processLive then ⟨.rejected (notRunningMsg target), []⟩
  else ⟨firstSettler events, [address ++ "\n"]⟩

/-! ### Interleaving of several `resolveAddress` calls

`resolveAddress` writes to stdin synchronously inside the promise
executor; nothing waits for earlier promises.  Each call also attaches
its own `data` listener to the shared stdout stream, so one data event
settles every pending promise. -/

/-- A step of a client-visible trace: a call to `resolveAddress` on a
live process, or delivery of a process event. -/
inductive CallStep where
  | call (address : String)
  | deliver (e : PEvent)
  deriving Repr, DecidableEq

/-- Trace state: the chronological stdin writes and, per call in call
order, whether its promise has settled. -/
structure CallTrace where
  writes : List String
  settled : List Bool
  deriving Repr, DecidableEq

/-- One trace step: a call writes `address + "\n"` at once and adds an
unsettled promise; a delivered event fires every attached listener and
settles every pending promise. -/
def callStep (st : CallTrace) : CallStep → CallTrace
  | .call address =>
    { writes := st.writes ++ [address ++ "\n"], settled := st.settled ++ [false] }
  | .deliver _ =>
    { st with settled := st.settled.map (fun _ => true) }

/-- Run a client trace from the empty state. -/
def callRun (steps : List CallStep) : CallTrace :=
  steps.foldl callStep ⟨[], []⟩

/-- The serialization property the specification asserts of the wrapper:
whenever a second query has been written to stdin, the first call's
promise has already settled. -/
def serializesQueries : Prop :=
  ∀ steps : List CallStep,
    2 ≤ (callRun steps).writes.length → (callRun steps).settled.getD 0 false = true

/-! ### `monitorTarget` and the watcher -/

/-- An operation the watcher handlers invoke on the wrapper. -/
inductive WrapperOp where
  | start (target : List Char)
  | stop
  deriving Repr, DecidableEq

/-- The watcher `monitorTarget` registers: its glob pattern and the
wrapper operation run on each event kind. -/
structure WatcherSetup where
  pattern : List Char
  onChange : WrapperOp
  onCreate : WrapperOp
  onDelete : WrapperOp
  deriving Repr, DecidableEq

/-- Definition of `monitorTarget`: with at least one workspace folder, compute
`absoluteTarget = folders[0].uri.path + "/" + target`, start the wrapper
now when the file exists, and watch it with change/create handlers
calling `addr2line.start(absoluteTarget)` and the delete handler calling
`addr2line.stop()`.  With no folder, no watcher is created and nothing
runs.  Returns the watcher and the immediate wrapper operations. -/
def monitorTarget (target : List Char) (workspaceFolders : List (List Char))
    (fsExists : List Char → Bool) : Option WatcherSetup × List WrapperOp :=
  match workspaceFolders with
  | [] => (none, [])
  | folder0 :: _ =>
    let absoluteTarget := folder0 ++ '/' :: target
    let initOps := if fsExists absoluteTarget then [WrapperOp.start absoluteTarget] else []
    (some { pattern := absoluteTarget
            onChange := .start absoluteTarget
            onCreate := .start absoluteTarget
            onDelete := .stop },
     initOps)

/-! ### Persistent extension state

The mutable bindings that persist between operations in `activate`'s
scope: `Addr2Line.process` and `targetWatcher`.  Fresh identifiers for a
spawned child or a created watcher are passed in as parameters. -/

structure ExtState where
  process : Option Nat
  watcher : Option Nat
  deriving Repr, DecidableEq

/-- The operations of the extension, as they affect the persistent
state.  `monitorTarget` carries whether a workspace folder exists and
whether the target file exists, plus fresh ids for the watcher it
creates and the child a `start` would spawn. -/
inductive ExtOp where
  | monitorTargetOp (freshWatcher freshPid : Nat) (hasFolder targetExists : Bool)
  | wrapperStart (freshPid : Nat)
  | wrapperStop
  | childClosed
  | provideLinksOp (line : String)
  | handleLinkOp (address : String)
  deriving Repr, DecidableEq

/-- Effect of one extension operation on the persistent state.
`provideTerminalLinks` and `handleTerminalLink` read state and perform
I/O but assign neither binding. -/
def applyExtOp (s : ExtState) : ExtOp → ExtState
  | .monitorTargetOp freshWatcher freshPid hasFolder targetExists =>
    if hasFolder then
      { process := if targetExists then some freshPid else s.process
        watcher := some freshWatcher }
    else { s with watcher := none }
  | .wrapperStart freshPid => { s with process := some freshPid }
  | .wrapperStop => { s with process := none }
  | .childClosed => { s with process := none }
  | .provideLinksOp _ => s
  | .handleLinkOp _ => s

/-- The frame property the specification asserts: no operation changes
any persistent state other than the child-process handle. -/
def onlyProcessPersists : Prop :=
  ∀ (s : ExtState) (op : ExtOp), (applyExtOp s op).watcher = s.watcher

/-! ## Supporting lemmas -/

/-- A fold that pushes one element per input is a map. -/
theorem foldl_push_eq_map {α β : Type} (f : α → β) :
    ∀ (l : List α) (init : List β),
      l.foldl (fun acc a => acc ++ [f a]) init = init ++ l.map f
  | [], init => by simp
  | a :: as, init => by
    simp only [List.foldl_cons, List.map_cons]
    rw [foldl_push_eq_map f as (init ++ [f a])]
    simp

/-- Soundness of the matcher against the declarative regex language:
any text it returns decomposes as the regex describes. -/
theorem matchAt_frameShape {s : List Char} {i : Nat} {txt : List Char}
    (h : matchAt s i = some txt) : frameShape txt := by
  simp only [matchAt] at h
  split at h
  · simp at h
  · rename_i hp1
    split at h
    · rename_i t2 heq2
      split at h
      · simp at h
      · rename_i hh1
        split at h
        · rename_i t3 heq3
          split at h
          · simp at h
          · rename_i hh2
            refine ⟨(s.drop i).takeWhile classChar, t2.takeWhile hexChar,
              t3.takeWhile hexChar, (Option.some.inj h).symm, hp1, hh1, hh2,
              ?_, ?_, ?_⟩ <;> simp [List.all_eq_true]
        · simp at h
    · simp at h

/-- Every match emitted by the scan comes from a successful `matchAt` at
its start index. -/
theorem scanMatches_matchAt {s : List Char} :
    ∀ {fuel i : Nat} {m : Nat × List Char},
      m ∈ scanMatches s i fuel → matchAt s m.1 = some m.2 := by
  intro fuel
  induction fuel with
  | zero => intro i m h; simp [scanMatches] at h
  | succ n ih =>
    intro i m h
    simp only [scanMatches] at h
    split at h
    · cases hm : matchAt s i with
      | some txt =>
        rw [hm] at h
        rcases List.mem_cons.mp h with h | h
        · rw [h]; exact hm
        · exact ih h
      | none =>
        rw [hm] at h
        exact ih h
    · simp at h

/-- Splitting never yields the empty list (JS `split` always returns at
least one piece). -/
theorem splitOnChar_ne_nil (sep : Char) : ∀ (l : List Char), splitOnChar sep l ≠ [] := by
  intro l
  induction l with
  | nil => simp [splitOnChar]
  | cons c cs ih =>
    simp only [splitOnChar]
    by_cases hc : c = sep
    · simp [hc]
    · simp only [if_neg hc]
      cases h : splitOnChar sep cs with
      | nil => simp
      | cons r rs => simp

/-- A separator-free list splits into itself alone. -/
theorem splitOnChar_not_mem {sep : Char} :
    ∀ {l : List Char}, sep ∉ l → splitOnChar sep l = [l] := by
  intro l
  induction l with
  | nil => intro _; rfl
  | cons c cs ih =>
    intro h
    have hc : ¬ c = sep := fun e => h (e ▸ List.mem_cons_self c cs)
    have hcs : sep ∉ cs := fun hm => h (List.mem_cons_of_mem _ hm)
    simp only [splitOnChar, if_neg hc, ih hcs]

/-- Splitting at the first separator occurrence. -/
theorem splitOnChar_append_sep {sep : Char} :
    ∀ {a : List Char} (b : List Char), sep ∉ a →
      splitOnChar sep (a ++ sep :: b) = a :: splitOnChar sep b := by
  intro a
  induction a with
  | nil => intro b _; simp [splitOnChar]
  | cons c cs ih =>
    intro b h
    have hc : ¬ c = sep := fun e => h (e ▸ List.mem_cons_self c cs)
    have hcs : sep ∉ cs := fun hm => h (List.mem_cons_of_mem _ hm)
    simp only [List.cons_append, splitOnChar, if_neg hc, List.append_eq]
    rw [ih b hcs]

/-- The first piece of a split is the longest separator-free prefix. -/
theorem splitOnChar_head? (sep : Char) : ∀ (l : List Char),
    (splitOnChar sep l).head? = some (l.takeWhile (· ≠ sep)) := by
  intro l
  induction l with
  | nil => rfl
  | cons c cs ih =>
    simp only [splitOnChar]
    by_cases hc : c = sep
    · simp [hc, List.takeWhile_cons]
    · simp only [if_neg hc]
      cases h : splitOnChar sep cs with
      | nil => exact absurd h (splitOnChar_ne_nil sep cs)
      | cons r rs =>
        rw [h] at ih
        simp only [List.head?_cons, Option.some.injEq] at ih
        simp [List.takeWhile_cons, hc, ih]

/-- The separator does not occur in the separator-free prefix. -/
theorem not_mem_takeWhile_ne (sep : Char) (l : List Char) :
    sep ∉ l.takeWhile (· ≠ sep) := by
  intro hm
  have := List.mem_takeWhile_imp hm
  simp at this

/-- Appending a `:`-suffix does not change whether `parseInt` yields NaN:
parsing stops at the first non-digit anyway, and NaN-ness is decided
before the appended part can be reached. -/
theorem takeWhile_isDigit_append_colon (rest y : List Char) :
    ((rest ++ ':' :: y).takeWhile Char.isDigit = []) ↔
      (rest.takeWhile Char.isDigit = []) := by
  cases rest with
  | nil =>
    have hcol : (':' : Char).isDigit = false := by decide
    simp [List.takeWhile_cons, hcol]
  | cons d ds =>
    simp only [List.cons_append, List.takeWhile_cons]
    by_cases hd : Char.isDigit d <;> simp [hd]

/-- NaN-ness of `parseIntCore` is unaffected by a `:`-guarded suffix. -/
theorem parseIntCore_append_colon (x y : List Char) :
    (parseIntCore (x ++ ':' :: y)).isNone = (parseIntCore x).isNone := by
  cases x with
  | nil =>
    have h1 : ¬ (':' : Char) = '+' := by decide
    have h2 : ¬ (':' : Char) = '-' := by decide
    have hcol : (':' : Char).isDigit = false := by decide
    simp [parseIntCore, h1, h2, List.takeWhile_cons, hcol]
  | cons c rest =>
    simp only [List.cons_append, parseIntCore]
    rcases takeWhile_isDigit_append_colon rest y with ⟨hmp, hpm⟩
    by_cases h1 : c = '+'
    · by_cases h2 : rest.takeWhile Char.isDigit = []
      · simp [h1, h2, hpm h2]
      · have h4 : ¬ (rest ++ ':' :: y).takeWhile Char.isDigit = [] :=
          fun h => h2 (hmp h)
        simp [h1, h2, h4]
    · by_cases h2 : c = '-'
      · by_cases h3 : rest.takeWhile Char.isDigit = []
        · simp [h1, h2, h3, hpm h3]
        · have h4 : ¬ (rest ++ ':' :: y).takeWhile Char.isDigit = [] :=
            fun h => h3 (hmp h)
          simp [h1, h2, h3, h4]
      · rcases takeWhile_isDigit_append_colon (c :: rest) y with ⟨hmp2, hpm2⟩
        by_cases h3 : (c :: rest).takeWhile Char.isDigit = []
        · have h4 := hpm2 h3
          simp only [List.cons_append] at h4
          simp [h1, h2, h3, h4]
        · have h4 : ¬ ((c :: rest) ++ ':' :: y).takeWhile Char.isDigit = [] :=
            fun h => h3 (hmp2 h)
          simp only [List.cons_append] at h4
          simp [h1, h2, h3, h4]

/-- NaN-ness of `parseInt` is unaffected by a `:`-guarded suffix. -/
theorem jsParseInt10_append_colon (x y : List Char) :
    (jsParseInt10 (x ++ ':' :: y)).isNone = (jsParseInt10 x).isNone := by
  unfold jsParseInt10
  induction x with
  | nil =>
    have : ¬ isJsWs ':' := by decide
    simp only [List.nil_append, List.dropWhile_nil, List.dropWhile_cons, this,
      if_false, Bool.false_eq_true]
    exact parseIntCore_append_colon [] y
  | cons c cs ih =>
    by_cases hw : isJsWs c
    · simpa [List.dropWhile_cons, hw] using ih
    · simp only [List.cons_append, List.dropWhile_cons, hw, Bool.false_eq_true,
        if_false]
      exact parseIntCore_append_colon (c :: cs) y

/-- The quick-pick item built for one parsed pair: the resolved path
made relative to the workspace again, plus the raw line string. -/
def itemOf (rel : List Char) (p : List Char × Option (List Char)) :
    List Char × Option (List Char) :=
  (path.relative rel (path.resolve [rel, p.1]), p.2)

/-- The absolute path built for one parsed pair. -/
def realPathOf (rel : List Char) (p : List Char × Option (List Char)) : List Char :=
  path.resolve [rel, p.1]

/-- The parsing loop is a map over the output lines: each line
contributes exactly one quick-pick item, one absolute path and one line
number, in order. -/
theorem processLine_foldl_eq (rel : List Char) :
    ∀ (ls : List (List Char)) (acc : HandlerAcc),
      ls.foldl (processLine rel) acc =
        ⟨acc.quickPickItems ++ ls.map (fun l => itemOf rel (parsedPair l)),
         acc.realPaths ++ ls.map (fun l => realPathOf rel (parsedPair l)),
         acc.lines ++ ls.map (fun l => lineNumberOf (parsedPair l).2)⟩
  | [], acc => by simp
  | l :: ls, acc => by
    simp only [List.foldl_cons, List.map_cons]
    rw [processLine_foldl_eq rel ls]
    simp [processLine, itemOf, realPathOf, parsedPair, lineNumberOf]

/-- The accumulator of `handleTerminalLink` in closed form: three
parallel maps over the parsed pairs. -/
theorem handlerAcc_eq (output : List Char) (folders : List (List Char)) :
    handlerAcc output folders =
      ⟨(parsedPairs output).map (itemOf (folders.headD ['/'])),
       (parsedPairs output).map (realPathOf (folders.headD ['/'])),
       (parsedPairs output).map (fun p => lineNumberOf p.2)⟩ := by
  unfold handlerAcc parsedPairs
  rw [processLine_foldl_eq]
  simp [List.map_map, Function.comp]

/-! ## Claims -/

/-- C1: for every terminal line, `provideTerminalLinks` returns exactly
one link per match of the regex `[^+\ :]+\+0x[0-9a-f]+\/0x[0-9a-f]+`
(global), carrying the match's start offset, the matched text's length,
a tooltip and the matched text itself; every emitted match is in the
regex's language, and the kernel backtrace line containing
`__sys_sendmsg+0x284/0x370` yields exactly that frame as its one link. -/
theorem provideTerminalLinks_per_match :
    (∀ line target,
      provideTerminalLinks line target =
        (jsMatchAll line).map (fun m =>
          { startIndex := m.1, length := m.2.length,
            tooltip := linkTooltip target, link := m.2 })) ∧
    (∀ line (m : Nat × String), m ∈ jsMatchAll line → frameShape m.2.toList) ∧
    provideTerminalLinks "[   14.229889]  __sys_sendmsg+0x284/0x370" "vmlinux" =
      [{ startIndex := 16, length := 25,
         tooltip := linkTooltip "vmlinux", link := "__sys_sendmsg+0x284/0x370" }] := by
  refine ⟨?_, ?_, ?_⟩
  · intro line target
    unfold provideTerminalLinks
    rw [foldl_push_eq_map]
    simp
  · intro line m hm
    unfold jsMatchAll at hm
    rcases List.mem_map.mp hm with ⟨m', hm', rfl⟩
    have hma := scanMatches_matchAt hm'
    simpa using matchAt_frameShape hma
  · rfl

/-- Witness for C1 at a concrete input: the frame matched on the sample
backtrace line is in the regex's language. -/
theorem provideTerminalLinks_per_match_witness :
    frameShape "__sys_sendmsg+0x284/0x370".toList :=
  provideTerminalLinks_per_match.2.1 "[   14.229889]  __sys_sendmsg+0x284/0x370"
    (16, "__sys_sendmsg+0x284/0x370") (by decide)

/-- C3: the resolver output is parsed by string splitting only: the
trimmed output is split on newlines, each line is trimmed and split on
`:` into a file path and a line-number string (`parsedPairs`), and the
loop's three lists are exactly the image of that ordered pair list. -/
theorem resolver_output_parsed_by_splitting (output : List Char)
    (folders : List (List Char)) :
    handlerAcc output folders =
      ⟨(parsedPairs output).map (itemOf (folders.headD ['/'])),
       (parsedPairs output).map (realPathOf (folders.headD ['/'])),
       (parsedPairs output).map (fun p => lineNumberOf p.2)⟩ :=
  handlerAcc_eq output folders

/-- C2: `handleTerminalLink` consumes the parsed resolution result
immediately: with more than one parsed pair it shows a quick pick whose
items list the pairs in their original order, and with exactly one pair
it opens that file at that line directly. -/
theorem handleTerminalLink_choice_or_open (output : List Char)
    (folders : List (List Char)) :
    (1 < (parsedPairs output).length →
      handleResolvedOutput output folders =
        Action.quickPick ((parsedPairs output).map (itemOf (folders.headD ['/'])))
          ((parsedPairs output).map (realPathOf (folders.headD ['/'])))
          ((parsedPairs output).map (fun p => lineNumberOf p.2))) ∧
    (∀ pr, parsedPairs output = [pr] →
      handleResolvedOutput output folders =
        Action.openFile (realPathOf (folders.headD ['/']) pr) (lineNumberOf pr.2)) := by
  have hacc := handlerAcc_eq output folders
  constructor
  · intro hlen
    unfold handleResolvedOutput
    rw [hacc]
    simp only [List.length_map]
    rw [if_pos hlen]
  · intro pr hpr
    unfold handleResolvedOutput
    rw [hacc, hpr]
    simp

/-- Witness for C2: a two-line output yields the quick pick over both
pairs in order; a one-line output opens the file directly. -/
theorem handleTerminalLink_choice_or_open_witness :
    handleResolvedOutput ("/src/a.c:12\n/src/b.c:34".toList) [("/ws".toList)] =
      Action.quickPick
        [("../src/a.c".toList, some ("12".toList)),
         ("../src/b.c".toList, some ("34".toList))]
        [("/src/a.c".toList), ("/src/b.c".toList)] [12, 34] ∧
    handleResolvedOutput ("/src/a.c:12".toList) [("/ws".toList)] =
      Action.openFile ("/src/a.c".toList) 12 :=
  ⟨((handleTerminalLink_choice_or_open
      ("/src/a.c:12\n/src/b.c:34".toList) [("/ws".toList)]).1
      (by decide)).trans (by decide),
   ((handleTerminalLink_choice_or_open
      ("/src/a.c:12".toList) [("/ws".toList)]).2
      ("/src/a.c".toList, some ("12".toList)) (by decide)).trans (by decide)⟩

/-- The second `:`-separated part of a line has the same
`parseInt`-NaN-ness as the whole portion after the first `:`. -/
theorem parsedPair_snd_nan {l : List Char}
    (hnan : jsParseInt10Opt (afterFirstColon l) = none) :
    jsParseInt10Opt ((splitOnChar ':' l).get? 1) = none := by
  by_cases hmem : ':' ∈ l
  · have htw : ':' ∉ l.takeWhile (· ≠ ':') := not_mem_takeWhile_ne ':' l
    have hsplit : l.takeWhile (· ≠ ':') ++ l.dropWhile (· ≠ ':') = l :=
      List.takeWhile_append_dropWhile _ _
    have hdw_ne : l.dropWhile (· ≠ ':') ≠ [] := by
      intro h0
      rw [← hsplit, h0, List.append_nil] at hmem
      exact htw hmem
    have hhead : (l.dropWhile (· ≠ ':')).head hdw_ne = ':' := by
      have := List.head_dropWhile_not (fun c => decide (c ≠ ':')) l hdw_ne
      simpa using this
    have hdw : l.dropWhile (· ≠ ':') = ':' :: (l.dropWhile (· ≠ ':')).tail := by
      conv_lhs => rw [← List.head_cons_tail _ hdw_ne]
      rw [hhead]
    have hafter : afterFirstColon l = some ((l.dropWhile (· ≠ ':')).tail) := by
      simp [afterFirstColon, hmem]
    rw [hafter] at hnan
    have hb : jsParseInt10 ((l.dropWhile (· ≠ ':')).tail) = none := hnan
    set b := (l.dropWhile (· ≠ ':')).tail with hbdef
    have hldecomp : l = l.takeWhile (· ≠ ':') ++ ':' :: b := by
      conv_lhs => rw [← hsplit, hdw]
    have hparts : splitOnChar ':' l =
        l.takeWhile (· ≠ ':') :: splitOnChar ':' b := by
      conv_lhs => rw [hldecomp]
      exact splitOnChar_append_sep b htw
    rw [hparts]
    have hget : (l.takeWhile (· ≠ ':') :: splitOnChar ':' b).get? 1 =
        (splitOnChar ':' b).head? := by
      cases h : splitOnChar ':' b with
      | nil => exact absurd h (splitOnChar_ne_nil ':' b)
      | cons r rs => simp [h]
    rw [hget, splitOnChar_head? ':' b]
    -- reduce to NaN-ness of the separator-free prefix of b
    have hbsplit : b.takeWhile (· ≠ ':') ++ b.dropWhile (· ≠ ':') = b :=
      List.takeWhile_append_dropWhile _ _
    cases hbd : b.dropWhile (· ≠ ':') with
    | nil =>
      rw [hbd, List.append_nil] at hbsplit
      rw [show jsParseInt10Opt (some (b.takeWhile (· ≠ ':'))) =
        jsParseInt10 (b.takeWhile (· ≠ ':')) from rfl]
      rw [hbsplit]
      exact hb
    | cons d ds =>
      have hbd_ne : b.dropWhile (· ≠ ':') ≠ [] := by rw [hbd]; simp
      have hdcol : d = ':' := by
        have := List.head_dropWhile_not (fun c => decide (c ≠ ':')) b hbd_ne
        simp only [hbd, List.head_cons] at this
        simpa using this
      have hbdecomp : b = b.takeWhile (· ≠ ':') ++ ':' :: ds := by
        conv_lhs => rw [← hbsplit, hbd, hdcol]
      have h5 : (jsParseInt10 (b.takeWhile (· ≠ ':'))).isNone = true := by
        rw [← jsParseInt10_append_colon (b.takeWhile (· ≠ ':')) ds, ← hbdecomp, hb]
        rfl
      exact Option.isNone_iff_eq_none.mp h5
  · have hparts : splitOnChar ':' l = [l] := splitOnChar_not_mem hmem
    rw [hparts]
    rfl

/-- C10: for every resolver output line whose portion after the first
`:` does not parse as an integer (including lines with no `:`), the
recorded line number defaults to 1. -/
theorem line_number_defaults_to_one (output : List Char)
    (folders : List (List Char)) (k : Nat) (line : List Char)
    (hline : (splitOnChar '\n' (jsTrim output)).get? k = some line)
    (hnan : jsParseInt10Opt (afterFirstColon (jsTrim line)) = none) :
    (handlerAcc output folders).lines.get? k = some 1 := by
  rw [handlerAcc_eq output folders]
  show ((parsedPairs output).map (fun p => lineNumberOf p.2)).get? k = some 1
  unfold parsedPairs
  rw [List.get?_map, List.get?_map, hline]
  have hsnd : (parsedPair line).2 = (splitOnChar ':' (jsTrim line)).get? 1 := rfl
  simp only [Option.map_some']
  rw [show lineNumberOf (parsedPair line).2 =
      (jsParseInt10Opt ((splitOnChar ':' (jsTrim line)).get? 1)).getD 1 from rfl]
  rw [parsedPair_snd_nan hnan]
  rfl

/-- Witness for C10: a line whose part after the colon is not numeric is
recorded with line number 1. -/
theorem line_number_defaults_to_one_witness :
    (handlerAcc ("??:x".toList) []).lines.get? 0 = some 1 :=
  line_number_defaults_to_one ("??:x".toList) [] 0 ("??:x".toList)
    (by decide) (by decide)

/-- C4 (refuted by the code): the at-most-one-live-child invariant
breaks.  After `start`, `start` (killing child 0), delivery of child 0's
queued close event (whose handler unconditionally nulls the handle, now
pointing at child 1), a third `start` skips the kill and spawns child 2
while child 1 is still alive: two live children. -/
theorem addr2line_two_live_children :
    (lifeRun lifeInit
      [LifeEvent.start, LifeEvent.start, LifeEvent.closeEv 0, LifeEvent.start]).alive
        = [1, 2] ∧
    1 < (lifeRun lifeInit
      [LifeEvent.start, LifeEvent.start, LifeEvent.closeEv 0, LifeEvent.start]).alive.length
  := by constructor <;> decide

/-- C5: with a workspace folder, `monitorTarget` watches
`folders[0] + "/" + target`, wiring change and create events to
`addr2line.start(absoluteTarget)` and delete to `addr2line.stop()`, and
starts at once iff the target exists; moreover `start` makes a freshly
spawned child the live handle and `stop` clears it. -/
theorem monitorTarget_handlers (target folder0 : List Char)
    (rest : List (List Char)) (fsExists : List Char → Bool) :
    monitorTarget target (folder0 :: rest) fsExists =
      (some { pattern := folder0 ++ '/' :: target
              onChange := .start (folder0 ++ '/' :: target)
              onCreate := .start (folder0 ++ '/' :: target)
              onDelete := .stop },
       if fsExists (folder0 ++ '/' :: target) then
         [WrapperOp.start (folder0 ++ '/' :: target)] else []) ∧
    (∀ s : LifeState, (lifeStep s LifeEvent.start).handle = some s.nextPid ∧
      s.nextPid ∈ (lifeStep s LifeEvent.start).alive) ∧
    (∀ s : LifeState, (lifeStep s LifeEvent.stop).handle = none) := by
  refine ⟨rfl, ?_, ?_⟩
  · intro s
    cases h : s.handle <;> simp [lifeStep, killPid, h]
  · intro s
    cases h : s.handle <;> simp [lifeStep, killPid, h]

/-- No stdout data event strictly before the 5000 ms timeout. -/
def noDataWithin5s (events : List (Nat × PEvent)) : Prop :=
  ∀ t s, (t, PEvent.data s) ∈ events → 5000 ≤ t

/-- C6 (refuted by the code): a close event before the deadline settles
the promise with the exit-code rejection, not the timeout rejection,
even though no stdout data ever arrives. -/
theorem resolveAddress_close_preempts_timeout :
    noDataWithin5s [(1000, PEvent.closeEv 1)] ∧
    (resolveAddress true "vmlinux" "ffffffff81000000"
      [(1000, PEvent.closeEv 1)]).outcome =
        Outcome.rejected "addr2line exited with code 1" ∧
    (resolveAddress true "vmlinux" "ffffffff81000000"
      [(1000, PEvent.closeEv 1)]).outcome ≠ Outcome.rejected timeoutMsg := by
  refine ⟨?_, by decide, by decide⟩
  intro t s h
  simp at h

/-- C6 as amended: when no stdout data, error, or close event arrives
within 5 seconds, the promise of a call on a live process is rejected
with the timeout error. -/
theorem resolveAddress_timeout_when_silent (target address : String)
    (events : List (Nat × PEvent)) (h : ∀ te ∈ events, 5000 ≤ te.1) :
    (resolveAddress true target address events).outcome =
      Outcome.rejected timeoutMsg := by
  show (firstSettler events) = Outcome.rejected timeoutMsg
  cases events with
  | nil => rfl
  | cons te rest =>
    obtain ⟨t, e⟩ := te
    have h1 := h (t, e) (List.mem_cons_self (t, e) rest)
    show (if t < 5000 then _ else Outcome.rejected timeoutMsg) =
      Outcome.rejected timeoutMsg
    rw [if_neg (by omega)]

/-- Witness for the amended C6: an event after the deadline leaves the
timeout rejection in force. -/
theorem resolveAddress_timeout_when_silent_witness :
    (resolveAddress true "vmlinux" "ffffffff81000000"
      [(6000, PEvent.data "x")]).outcome = Outcome.rejected timeoutMsg :=
  resolveAddress_timeout_when_silent "vmlinux" "ffffffff81000000"
    [(6000, PEvent.data "x")] (by decide)

/-- C7 (refuted by the code): the wrapper does not serialize queries:
two back-to-back calls both write to stdin while neither promise has
settled. -/
theorem resolveAddress_not_serialized : ¬ serializesQueries := by
  intro h
  have h2 := h [CallStep.call "a", CallStep.call "b"] (by decide)
  exact absurd h2 (by decide)

/-- C7 as amended: each call on a live process writes its query to
stdin immediately, at call time, regardless of whether earlier calls
have settled, so several queries can be outstanding at once. -/
theorem resolveAddress_write_immediate (steps : List CallStep) (address : String) :
    callRun (steps ++ [CallStep.call address]) =
      { writes := (callRun steps).writes ++ [address ++ "\n"],
        settled := (callRun steps).settled ++ [false] } := by
  unfold callRun
  rw [List.foldl_append]
  rfl

/-- C8 (refuted by the code): the watcher handle is further persistent
mutable state: `monitorTarget` changes `targetWatcher`, which survives
into later operations. -/
theorem extension_watcher_state_persists : ¬ onlyProcessPersists := by
  intro h
  have h2 := h ⟨none, none⟩ (ExtOp.monitorTargetOp 0 0 true false)
  exact absurd h2 (by decide)

/-- Whether an operation is a `monitorTarget` invocation. -/
def ExtOp.isMonitorTargetCall : ExtOp → Bool
  | .monitorTargetOp .. => true
  | _ => false

/-- C8 as amended: the persistent mutable state is the child-process
handle plus the watcher handle; every operation other than
`monitorTarget` leaves the watcher handle unchanged. -/
theorem watcher_preserved_outside_monitor (s : ExtState) (op : ExtOp)
    (h : op.isMonitorTargetCall = false) :
    (applyExtOp s op).watcher = s.watcher := by
  cases op <;> simp_all [applyExtOp, ExtOp.isMonitorTargetCall]

/-- Witness for the amended C8: a wrapper start does not touch the
watcher handle. -/
theorem watcher_preserved_outside_monitor_witness :
    (applyExtOp ⟨some 3, some 7⟩ (ExtOp.wrapperStart 5)).watcher =
      (⟨some 3, some 7⟩ : ExtState).watcher :=
  watcher_preserved_outside_monitor ⟨some 3, some 7⟩ (ExtOp.wrapperStart 5)
    (by decide)

/-- C9: with no live process, `resolveAddress` rejects immediately with
the "not running" error and writes nothing; with a live process it
writes the address followed by a newline to stdin. -/
theorem resolveAddress_not_running_guard (target address : String)
    (events : List (Nat × PEvent)) :
    resolveAddress false target address events =
      ⟨Outcome.rejected (notRunningMsg target), []⟩ ∧
    (resolveAddress true target address events).writes = [address ++ "\n"] :=
  ⟨rfl, rfl⟩

end Addr2LineExt
